import Mathlib

/-!
Shallow embedding of the person-click derived-data toolkit
(`src/main/python/personClickUtils.py`): temporal week bucketing,
person-level reshape, discard-pattern normalization, integrity metrics,
and geolocation local-time enrichment.

Timestamps are modelled as UTC seconds (`Int`); durations divide exactly
as rationals, matching the source's exact timedelta arithmetic at the
second resolution used by all claims.
-/

/-- One person-click event record.  `actor = none` models a null/NaN actor
(anonymous user); `object_name = none` models a null object name. -/
structure Event where
  actor : Option String
  verb : String
  time : Int
  object_name : Option String
deriving DecidableEq, Repr

/-- Seconds in one week, the unit `np.timedelta64(1, 'W')` used by
`determineWeek`. -/
def secondsPerWeek : Nat := 604800

/-- `math.floor(x / 1 week)` on the exact duration ratio: integer floor
division (`Int./` is Euclidean division, which floors for a positive
divisor; `floorWeekDiv_eq_floor` below checks this against `⌊·⌋` on ℚ). -/
def floorWeekDiv (x : Int) : Int := x / (secondsPerWeek : Int)

/-- `math.ceil(x / 1 week)` on the exact duration ratio
(`ceilWeekDiv_eq_ceil` below checks this against `⌈·⌉` on ℚ). -/
def ceilWeekDiv (x : Int) : Int := -((-x) / (secondsPerWeek : Int))

/-- `determineWeek` from `getStartAndEndWeeks`:
`if x < 0: floor(x / 1 week) else: ceil(x / 1 week) - 1`.
`x` is a duration in seconds. -/
def determineWeek (x : Int) : Int :=
  if x < 0 then floorWeekDiv x else ceilWeekDiv x - 1

/-- The distinct non-null actors of a record set (`groupby('actor')` group
keys; null actors are dropped by pandas groupby). -/
def actorsOf (rs : List Event) : List String :=
  (rs.filterMap (fun e => e.actor)).dedup

/-- All events of a given actor, in original record order. -/
def eventsOf (rs : List Event) (a : String) : List Event :=
  rs.filter (fun e => decide (e.actor = some a))

/-- Time of the actor's first event (`users.first().time`); events per
actor are presented in non-decreasing time order. -/
def firstTimeOf (rs : List Event) (a : String) : Option Int :=
  (eventsOf rs a).head?.map (fun e => e.time)

/-- Time of the actor's last event (`users.last().time`). -/
def lastTimeOf (rs : List Event) (a : String) : Option Int :=
  (eventsOf rs a).getLast?.map (fun e => e.time)

/-- `getStartAndEndWeeks`: one row per distinct actor, carrying
`determineWeek` of the first and last event times relative to course
start.  The `getD 0` defaults are never hit: every listed actor has at
least one event. -/
def getStartAndEndWeeks (rs : List Event) (courseStart : Int) :
    List (String × Int × Int) :=
  (actorsOf rs).map fun a =>
    (a, determineWeek ((firstTimeOf rs a).getD 0 - courseStart),
        determineWeek ((lastTimeOf rs a).getD 0 - courseStart))

/-- Look up the `start_week` of an actor in a `getStartAndEndWeeks`
result. -/
def startWeekOf (out : List (String × Int × Int)) (a : String) : Option Int :=
  (out.find? (fun r => decide (r.1 = a))).map (fun r => r.2.1)

/-- Seconds in one day; `dateOf` truncates a UTC timestamp to its calendar
date (`pd.to_datetime(...).apply(lambda x: x.date())`). -/
def secondsPerDay : Nat := 86400

/-- Calendar date of a UTC timestamp, as a day number (floor division,
correct also for pre-epoch times). -/
def dateOf (t : Int) : Int := t / (secondsPerDay : Int)

/-- `days_active` of one actor: the number of distinct calendar dates among
the actor's events (`groupby("actor").agg(lambda x: len(x.unique()))` on
the date-truncated time column). -/
def daysActive (rs : List Event) (a : String) : Nat :=
  (((eventsOf rs a).map (fun e => dateOf e.time)).dedup).length

/-- Number of events with the given actor and verb
(`groupby([df["actor"], df["verb"]]).size()`). -/
def verbCount (rs : List Event) (a v : String) : Nat :=
  rs.countP (fun e => decide (e.actor = some a ∧ e.verb = v))

/-- One cell of the pivoted (actor × verb) table: `none` models the NaN a
pivot leaves where the (actor, verb) group is absent, before `fillna`. -/
def pivotCell (rs : List Event) (a v : String) : Option Nat :=
  if verbCount rs a v = 0 then none else some (verbCount rs a v)

/-- `makePersonLevel`: one row per distinct (non-null) actor; the count
columns are re-indexed to exactly `knownVerbs` (the fixed
`trackingLogParser.possible_verbs` vocabulary, passed explicitly here),
absent cells filled with 0 (`pd.DataFrame(user_verbs,
columns=possible_verbs).fillna(0)`), plus the `days_active` column. -/
def makePersonLevel (rs : List Event) (knownVerbs : List String) :
    List (String × List Nat × Nat) :=
  (actorsOf rs).map fun a =>
    (a, knownVerbs.map (fun v => (pivotCell rs a v).getD 0), daysActive rs a)

/-- Hexadecimal digit class of the regex `[0-9a-f]`. -/
def isHexCh (c : Char) : Bool :=
  decide (('0' ≤ c ∧ c ≤ '9') ∨ ('a' ≤ c ∧ c ≤ 'f'))

/-- Lowercase letter class of the regex `[a-z]`. -/
def isLowerCh (c : Char) : Bool := decide ('a' ≤ c ∧ c ≤ 'z')

/-- Decimal digit class of the regex `[0-9]`. -/
def isDigitCh (c : Char) : Bool := decide ('0' ≤ c ∧ c ≤ '9')

/-- Length of the maximal prefix whose characters satisfy `p` (how far a
greedy character-class quantifier reaches from this position). -/
def runLen (p : Char → Bool) : List Char → Nat
  | [] => 0
  | c :: cs => if p c then runLen p cs + 1 else 0

/-- Replacement text of the first substitution pass. -/
def hashTok : List Char := "{HASH}".toList

/-- Replacement text of the second substitution pass. -/
def idTok : List Char := "{NONHASH_ID}".toList

/-- Scanner for `re.sub(r'[0-9a-f]{24,32}', '{HASH}', s)`: at each
position, a greedy match consumes `min(run, 32)` hex characters provided
the run reaches 24; otherwise the scan advances one character.  `fuel`
bounds recursion and is initialised to the string length, which every
step preserves as an upper bound on the remaining suffix. -/
def subHashGo : Nat → List Char → List Char
  | 0, cs => cs
  | _ + 1, [] => []
  | fuel + 1, c :: cs =>
    if 24 ≤ runLen isHexCh (c :: cs) then
      hashTok ++ subHashGo fuel (List.drop (min (runLen isHexCh (c :: cs)) 32) (c :: cs))
    else c :: subHashGo fuel cs

/-- First substitution pass of `replaceHashes`. -/
def subHash (s : List Char) : List Char := subHashGo s.length s

/-- Match a literal prefix, returning the remaining suffix. -/
def dropLit : List Char → List Char → Option (List Char)
  | [], cs => some cs
  | _ :: _, [] => none
  | l :: ls, c :: cs => if c = l then dropLit ls cs else none

/-- Total length consumed by the greedy `(_[a-z]+)*` tail: each iteration
consumes `_` plus a maximal nonempty lowercase run.  Greedy matching is
exact here (no backtracking can help): after a maximal `[a-z]+` run the
next character is not lowercase, so shortening a run only puts a lowercase
letter where the following literal `_` is required. -/
def groupsLen : Nat → List Char → Nat
  | 0, _ => 0
  | fuel + 1, cs =>
    match cs with
    | '_' :: rest =>
      if 1 ≤ runLen isLowerCh rest then
        1 + runLen isLowerCh rest + groupsLen fuel (List.drop (runLen isLowerCh rest) rest)
      else 0
    | _ => 0

/-- Length matched at this position by the second alternative
`[a-z]+_l[0-9]+(_[a-z]+)+`, if any.  As with `groupsLen`, the greedy
`[a-z]+` and `[0-9]+` runs are forced: each is followed by a literal
outside its character class, so backtracking them can never succeed. -/
def matchIdAlt (cs : List Char) : Option Nat :=
  if 1 ≤ runLen isLowerCh cs then
    match List.drop (runLen isLowerCh cs) cs with
    | '_' :: 'l' :: rest2 =>
      if 1 ≤ runLen isDigitCh rest2 then
        if 1 ≤ groupsLen rest2.length (List.drop (runLen isDigitCh rest2) rest2) then
          some (runLen isLowerCh cs + 2 + runLen isDigitCh rest2
            + groupsLen rest2.length (List.drop (runLen isDigitCh rest2) rest2))
        else none
      else none
    | _ => none
  else none

/-- Length matched at this position by
`(lecture_[0-9]+)|([a-z]+_l[0-9]+(_[a-z]+)+)`, if any: Python alternation
tries `lecture_[0-9]+` first, then the second alternative. -/
def matchIdLen (cs : List Char) : Option Nat :=
  match dropLit ("lecture_".toList) cs with
  | some rest =>
    if 1 ≤ runLen isDigitCh rest then some (8 + runLen isDigitCh rest)
    else matchIdAlt cs
  | none => matchIdAlt cs

/-- Scanner for the second `re.sub` of `replaceHashes` (leftmost match,
replace, continue after the match). -/
def subIdGo : Nat → List Char → List Char
  | 0, cs => cs
  | _ + 1, [] => []
  | fuel + 1, c :: cs =>
    match matchIdLen (c :: cs) with
    | some n => idTok ++ subIdGo fuel (List.drop n (c :: cs))
    | none => c :: subIdGo fuel cs

/-- Second substitution pass of `replaceHashes`. -/
def subId (s : List Char) : List Char := subIdGo s.length s

/-- `replaceHashes` from `getUniqueDiscardPatterns`: hex-hash substitution
followed by identifier substitution. -/
def replaceHashes (s : List Char) : List Char := subId (subHash s)

/-- Error taxonomy surfaced to callers (§7 of the spec); the empty-dataset
case models the uncaught `ZeroDivisionError` of
`float(n_anonymous) / n_total`. -/
inductive ErrorKind where
  | emptyDataset
deriving DecidableEq, Repr

/-- Result of `countAnonymousUserEvents`: a ratio (float) when `pct`, the
raw count (int) otherwise. -/
inductive CountResult where
  | ratio (q : ℚ)
  | count (n : Nat)
deriving DecidableEq, Repr

/-- `countAnonymousUserEvents`: number of events with a null actor,
divided by the total if `pct`.  Division by a zero total is the
uncaught `ZeroDivisionError`, surfaced as `ErrorKind.emptyDataset`. -/
def countAnonymousUserEvents (rs : List Event) (pct : Bool) :
    Except ErrorKind CountResult :=
  if pct then
    if rs.length = 0 then Except.error ErrorKind.emptyDataset
    else Except.ok (CountResult.ratio
      ((rs.countP (fun e => decide (e.actor = none)) : ℚ) / (rs.length : ℚ)))
  else Except.ok (CountResult.count (rs.countP (fun e => decide (e.actor = none))))

/-- Does `needle` occur as a prefix of `hay`? -/
def isPrefixSub : List Char → List Char → Bool
  | [], _ => true
  | _ :: _, [] => false
  | n :: ns, h :: hs => decide (n = h) && isPrefixSub ns hs

/-- Python's substring test `needle in hay`. -/
def hasSub (hay needle : List Char) : Bool :=
  match hay with
  | [] => needle.isEmpty
  | _ :: t => isPrefixSub needle hay || hasSub t needle

/-- `str(x)` applied to the `object_name` column: a null (NaN) renders as
`"nan"`, which does not contain the sentinel. -/
def strOfObjName : Option String → List Char
  | none => "nan".toList
  | some s => s.toList

/-- The failed-courseware-lookup sentinel substring. -/
def axisFailSentinel : List Char := "Axis Lookup Failed".toList

/-- `getAxisLookupFails`: the rows whose stringified `object_name`
contains the sentinel, in original order, rows unchanged. -/
def getAxisLookupFails (rs : List Event) : List Event :=
  rs.filter (fun e => hasSub (strOfObjName e.object_name) axisFailSentinel)

/-- A geolocation-provider record (`gi4.record_by_addr`); any field may be
empty for a given IP. -/
structure GeoRecord where
  time_zone : String
  city : String
  country_name : String
  country_code : String
  latitude : Int
  longitude : Int

/-- One output row of `getIPInfo`.  `local_time = none` is the explicit
unknown sentinel (`local_time = None` in the source). -/
structure IPInfo where
  local_time : Option Int
  city : String
  country_name : String
  country_code : String
  latitude : Int
  longitude : Int

/-- Per-record body of `getIPInfo`.  `geo` is the geo-IP oracle; `tzdb`
models `pytz.timezone` followed by `astimezone` as the UTC offset of a
timezone name, `none` when the name is empty/unrecognized or conversion
fails — the source's bare `except` then sets `local_time = None`.  The
timestamp `t` is the already-parsed UTC time of the record. -/
def getIPInfoRow (geo : String → GeoRecord) (tzdb : String → Option Int)
    (t : Int) (ip : String) : IPInfo :=
  { local_time :=
      match tzdb (geo ip).time_zone with
      | some off => some (t + off)
      | none => none,
    city := (geo ip).city,
    country_name := (geo ip).country_name,
    country_code := (geo ip).country_code,
    latitude := (geo ip).latitude,
    longitude := (geo ip).longitude }

/-- `getIPInfo`: per-record enrichment applied across the whole batch
(`df[['time', 'ip']].apply(getInfo, axis=1)`). -/
def getIPInfo (geo : String → GeoRecord) (tzdb : String → Option Int)
    (rows : List (Int × String)) : List IPInfo :=
  rows.map (fun p => getIPInfoRow geo tzdb p.1 p.2)

/-- A geo oracle whose every field is empty (an IP with no resolvable
data), for concrete instantiation. -/
def emptyGeo : String → GeoRecord := fun _ => ⟨"", "", "", "", 0, 0⟩

/-- A timezone database recognizing no name (every conversion fails), for
concrete instantiation. -/
def noTzdb : String → Option Int := fun _ => none

theorem floorWeekDiv_eq_floor (x : Int) :
    floorWeekDiv x = ⌊(x : ℚ) / (secondsPerWeek : ℚ)⌋ :=
  (Rat.floor_intCast_div_natCast x secondsPerWeek).symm

theorem ceilWeekDiv_eq_ceil (x : Int) :
    ceilWeekDiv x = ⌈(x : ℚ) / (secondsPerWeek : ℚ)⌉ := by
  have h1 : ((-x : Int) : ℚ) / (secondsPerWeek : ℚ)
      = -((x : ℚ) / (secondsPerWeek : ℚ)) := by
    push_cast
    ring
  have h2 := Rat.floor_intCast_div_natCast (-x) secondsPerWeek
  rw [h1, Int.floor_neg] at h2
  have h3 : ceilWeekDiv x = -((-x) / ((secondsPerWeek : Nat) : Int)) := rfl
  rw [h3, ← h2, neg_neg]

theorem determineWeek_eq_spec (x : Int) :
    determineWeek x = if x < 0 then ⌊(x : ℚ) / (secondsPerWeek : ℚ)⌋
      else ⌈(x : ℚ) / (secondsPerWeek : ℚ)⌉ - 1 := by
  rw [determineWeek]
  split
  · exact floorWeekDiv_eq_floor x
  · rw [ceilWeekDiv_eq_ceil]

theorem mem_actorsOf {rs : List Event} {a : String} :
    a ∈ actorsOf rs ↔ ∃ e ∈ rs, e.actor = some a := by
  simp [actorsOf, List.mem_dedup, List.mem_filterMap]

theorem eventsOf_ne_nil {rs : List Event} {a : String} (h : a ∈ actorsOf rs) :
    eventsOf rs a ≠ [] := by
  rcases mem_actorsOf.mp h with ⟨e, he, hae⟩
  intro hnil
  have hmem : e ∈ eventsOf rs a := List.mem_filter.mpr ⟨he, by simp [hae]⟩
  rw [hnil] at hmem
  exact absurd hmem (List.not_mem_nil e)

theorem firstTimeOf_isSome {rs : List Event} {a : String} (h : a ∈ actorsOf rs) :
    (firstTimeOf rs a).isSome := by
  rw [firstTimeOf, Option.isSome_map']
  exact List.head?_isSome.mpr (eventsOf_ne_nil h)

theorem lastTimeOf_isSome {rs : List Event} {a : String} (h : a ∈ actorsOf rs) :
    (lastTimeOf rs a).isSome := by
  rw [lastTimeOf, Option.isSome_map']
  exact List.getLast?_isSome.mpr (eventsOf_ne_nil h)

theorem find?_fst_map {β : Type} (g : String → β) (l : List String) (a : String)
    (h : a ∈ l) :
    (l.map (fun b => (b, g b))).find? (fun r => decide (r.1 = a)) = some (a, g a) := by
  induction l with
  | nil => exact absurd h (List.not_mem_nil a)
  | cons x xs ih =>
    by_cases hxa : x = a
    · subst hxa
      simp [List.find?_cons_of_pos]
    · rcases List.mem_cons.mp h with h1 | h2
      · exact absurd h1.symm hxa
      · rw [List.map_cons, List.find?_cons_of_neg _ (by simp [hxa])]
        exact ih h2

theorem startWeekOf_lookup (rs : List Event) (T0 : Int) (a : String)
    (h : a ∈ actorsOf rs) :
    startWeekOf (getStartAndEndWeeks rs T0) a
      = some (determineWeek ((firstTimeOf rs a).getD 0 - T0)) := by
  unfold startWeekOf getStartAndEndWeeks
  rw [find?_fst_map
    (fun b => (determineWeek ((firstTimeOf rs b).getD 0 - T0),
               determineWeek ((lastTimeOf rs b).getD 0 - T0))) (actorsOf rs) a h]
  rfl

/-- C1 counterexample: for a single-actor record set whose (first) event is
at exactly the course start, `getStartAndEndWeeks` yields `start_week = -1`,
not the claimed `0` (the code's `ceil(0) - 1 = -1`); likewise an event at
exactly `T0 + 7 days` yields week `0`, not the claimed `1`. -/
theorem getStartAndEndWeeks_start_boundary_counterexample :
    firstTimeOf [⟨some "u1", "play_video", 1000, none⟩] "u1" = some 1000 ∧
    startWeekOf (getStartAndEndWeeks [⟨some "u1", "play_video", 1000, none⟩] 1000) "u1"
      ≠ some 0 ∧
    startWeekOf (getStartAndEndWeeks [⟨some "u1", "play_video", 1000, none⟩] 1000) "u1"
      = some (-1) ∧
    firstTimeOf [⟨some "u2", "play_video", 604800, none⟩] "u2" = some 604800 ∧
    startWeekOf (getStartAndEndWeeks [⟨some "u2", "play_video", 604800, none⟩] 0) "u2"
      ≠ some 1 ∧
    startWeekOf (getStartAndEndWeeks [⟨some "u2", "play_video", 604800, none⟩] 0) "u2"
      = some 0 := by
  refine ⟨by decide, by decide, by decide, by decide, by decide, by decide⟩

/-- C1 (amended): an actor whose first event is at exactly `T0` gets
`start_week = -1`; at `T0 - 1` second, `start_week = -1`; at `T0 + 7` days,
week `0`; at `T0 + 6` days `23:59:59`, week `0`. -/
theorem getStartAndEndWeeks_boundary_weeks (rs : List Event) (T0 : Int)
    (a : String) (t : Int) (h : firstTimeOf rs a = some t) :
    (t = T0 → startWeekOf (getStartAndEndWeeks rs T0) a = some (-1)) ∧
    (t = T0 - 1 → startWeekOf (getStartAndEndWeeks rs T0) a = some (-1)) ∧
    (t = T0 + 7 * 86400 → startWeekOf (getStartAndEndWeeks rs T0) a = some 0) ∧
    (t = T0 + (6 * 86400 + 86399) → startWeekOf (getStartAndEndWeeks rs T0) a = some 0) := by
  have hne : eventsOf rs a ≠ [] := by
    intro hnil
    rw [firstTimeOf, hnil] at h
    exact Option.noConfusion h
  have hmem : a ∈ actorsOf rs := by
    rcases List.exists_mem_of_ne_nil _ hne with ⟨e, hee⟩
    rcases List.mem_filter.mp hee with ⟨he, hae⟩
    exact mem_actorsOf.mpr ⟨e, he, by simpa using hae⟩
  have hlook := startWeekOf_lookup rs T0 a hmem
  rw [h] at hlook
  simp only [Option.getD_some] at hlook
  refine ⟨?_, ?_, ?_, ?_⟩ <;> intro ht <;> rw [ht] at hlook <;> rw [hlook]
  · rw [show T0 - T0 = 0 by ring]
    decide
  · rw [show T0 - 1 - T0 = -1 by ring]
    decide
  · rw [show T0 + 7 * 86400 - T0 = 604800 by ring]
    decide
  · rw [show T0 + (6 * 86400 + 86399) - T0 = 604799 by ring]
    decide

theorem getStartAndEndWeeks_boundary_weeks_witness :
    firstTimeOf [⟨some "u1", "play_video", 604800, none⟩] "u1" = some 604800 ∧
    startWeekOf (getStartAndEndWeeks [⟨some "u1", "play_video", 604800, none⟩] 0) "u1"
      = some 0 :=
  ⟨by decide,
   (getStartAndEndWeeks_boundary_weeks [⟨some "u1", "play_video", 604800, none⟩]
      0 "u1" 604800 (by decide)).2.2.1 (by norm_num)⟩

/-- C2: every row of `getStartAndEndWeeks` carries, for both the first and
the last event of its actor, the week index `floor(d / 7 days)` of the
exact relative duration when it is negative and `ceil(d / 7 days) - 1`
otherwise. -/
theorem getStartAndEndWeeks_formula (rs : List Event) (T0 : Int) (a : String)
    (sw ew : Int) (h : (a, sw, ew) ∈ getStartAndEndWeeks rs T0) :
    ∃ tf tl, firstTimeOf rs a = some tf ∧ lastTimeOf rs a = some tl ∧
      sw = (if tf - T0 < 0 then ⌊((tf - T0 : Int) : ℚ) / (secondsPerWeek : ℚ)⌋
            else ⌈((tf - T0 : Int) : ℚ) / (secondsPerWeek : ℚ)⌉ - 1) ∧
      ew = (if tl - T0 < 0 then ⌊((tl - T0 : Int) : ℚ) / (secondsPerWeek : ℚ)⌋
            else ⌈((tl - T0 : Int) : ℚ) / (secondsPerWeek : ℚ)⌉ - 1) := by
  rcases List.mem_map.mp h with ⟨b, hb, heq⟩
  have hb1 : b = a := congrArg Prod.fst heq
  subst hb1
  have hsw : sw = determineWeek ((firstTimeOf rs b).getD 0 - T0) :=
    (congrArg (fun p => p.2.1) heq).symm
  have hew : ew = determineWeek ((lastTimeOf rs b).getD 0 - T0) :=
    (congrArg (fun p => p.2.2) heq).symm
  obtain ⟨tf, htf⟩ := Option.isSome_iff_exists.mp (firstTimeOf_isSome hb)
  obtain ⟨tl, htl⟩ := Option.isSome_iff_exists.mp (lastTimeOf_isSome hb)
  refine ⟨tf, tl, htf, htl, ?_, ?_⟩
  · rw [hsw, htf, Option.getD_some, determineWeek_eq_spec]
  · rw [hew, htl, Option.getD_some, determineWeek_eq_spec]

theorem daysActive_eq_card (rs : List Event) (a : String) :
    daysActive rs a = ((eventsOf rs a).map (fun e => dateOf e.time)).toFinset.card := by
  rw [daysActive, List.card_toFinset]

/-- C3: every row of `makePersonLevel` has exactly one count column per
verb of the vocabulary, positionally aligned with it, and the entry is the
number 0 — never a missing value — at every vocabulary position whose verb
has no events by that actor. -/
theorem makePersonLevel_zero_fill (rs : List Event) (kv : List String)
    (a : String) (counts : List Nat) (da : Nat)
    (h : (a, counts, da) ∈ makePersonLevel rs kv) :
    counts.length = kv.length ∧
    ∀ (i : Nat) (v : String), kv[i]? = some v →
      (∀ e ∈ rs, e.actor = some a → e.verb ≠ v) → counts[i]? = some 0 := by
  rcases List.mem_map.mp h with ⟨b, hb, heq⟩
  have hb1 : b = a := congrArg Prod.fst heq
  subst hb1
  have hc : counts = kv.map (fun v => (pivotCell rs b v).getD 0) :=
    (congrArg (fun p => p.2.1) heq).symm
  constructor
  · rw [hc, List.length_map]
  · intro i v hkv hno
    rw [hc, List.getElem?_map, hkv]
    have hcount : verbCount rs b v = 0 := by
      rw [verbCount, List.countP_eq_zero]
      intro e he
      simp only [decide_eq_true_eq, not_and]
      intro hae hve
      exact hno e he hae hve
    simp [pivotCell, hcount]

theorem makePersonLevel_zero_fill_witness :
    (([1, 0, 0] : List Nat)[1]? = some 0) :=
  (makePersonLevel_zero_fill [⟨some "u1", "play_video", 0, none⟩]
    ["play_video", "show_answer", "seek_video"] "u1" [1, 0, 0] 1 (by decide)).2
    1 "show_answer" (by decide) (by decide)

/-- C9: the `days_active` entry of every `makePersonLevel` row is the
number of distinct calendar dates bearing at least one event of that
actor, independent of per-date event multiplicity. -/
theorem makePersonLevel_days_active (rs : List Event) (kv : List String)
    (a : String) (counts : List Nat) (da : Nat)
    (h : (a, counts, da) ∈ makePersonLevel rs kv) :
    da = ((eventsOf rs a).map (fun e => dateOf e.time)).toFinset.card := by
  rcases List.mem_map.mp h with ⟨b, hb, heq⟩
  have hb1 : b = a := congrArg Prod.fst heq
  subst hb1
  have hda : da = daysActive rs b := (congrArg (fun p => p.2.2) heq).symm
  rw [hda, daysActive_eq_card]

theorem makePersonLevel_days_active_witness :
    (2 : Nat) = (((eventsOf [⟨some "u1", "play_video", 0, none⟩,
        ⟨some "u1", "play_video", 100, none⟩,
        ⟨some "u1", "play_video", 200, none⟩,
        ⟨some "u1", "play_video", 86400, none⟩] "u1").map
      (fun e => dateOf e.time)).toFinset.card) :=
  makePersonLevel_days_active [⟨some "u1", "play_video", 0, none⟩,
      ⟨some "u1", "play_video", 100, none⟩,
      ⟨some "u1", "play_video", 200, none⟩,
      ⟨some "u1", "play_video", 86400, none⟩] ["play_video"] "u1" [4] 2
    (by decide)

/-- C10: an event whose verb is outside the vocabulary contributes no
count anywhere — the row's counts are those of the input restricted to
vocabulary verbs — yet the actor still gets a row, and the event's date
still counts toward `days_active`. -/
theorem makePersonLevel_unknown_verb (rs : List Event) (kv : List String)
    (a : String) (e : Event) (he : e ∈ rs) (ha : e.actor = some a)
    (_hv : e.verb ∉ kv) :
    ∃ counts da,
      (a, counts, da) ∈ makePersonLevel rs kv ∧
      counts = kv.map (fun v =>
        (pivotCell (rs.filter (fun r => decide (r.verb ∈ kv))) a v).getD 0) ∧
      da = ((eventsOf rs a).map (fun r => dateOf r.time)).toFinset.card ∧
      dateOf e.time ∈ ((eventsOf rs a).map (fun r => dateOf r.time)).toFinset := by
  have hmem : a ∈ actorsOf rs := mem_actorsOf.mpr ⟨e, he, ha⟩
  refine ⟨kv.map (fun v => (pivotCell rs a v).getD 0), daysActive rs a,
    List.mem_map.mpr ⟨a, hmem, rfl⟩, ?_, daysActive_eq_card rs a, ?_⟩
  · apply List.map_congr_left
    intro v hvkv
    have hcnt : verbCount (rs.filter (fun r => decide (r.verb ∈ kv))) a v
        = verbCount rs a v := by
      rw [verbCount, verbCount, List.countP_filter]
      apply List.countP_congr
      intro x _
      simp only [Bool.and_eq_true, decide_eq_true_eq]
      constructor
      · intro hx
        exact ⟨hx.1.1, hx.1.2⟩
      · intro hx
        exact ⟨⟨hx.1, hx.2⟩, hx.2 ▸ hvkv⟩
    rw [pivotCell, pivotCell, hcnt]
  · rw [List.mem_toFinset]
    exact List.mem_map.mpr ⟨e, List.mem_filter.mpr ⟨he, by simp [ha]⟩, rfl⟩

theorem makePersonLevel_unknown_verb_witness :
    ∃ counts da,
      ("u1", counts, da) ∈ makePersonLevel [⟨some "u1", "weird_verb", 0, none⟩]
        ["play_video"] ∧
      counts = (["play_video"] : List String).map (fun v =>
        (pivotCell ([⟨some "u1", "weird_verb", 0, none⟩].filter
          (fun r => decide (r.verb ∈ (["play_video"] : List String)))) "u1" v).getD 0) ∧
      da = ((eventsOf [⟨some "u1", "weird_verb", 0, none⟩] "u1").map
        (fun r => dateOf r.time)).toFinset.card ∧
      dateOf (0 : Int) ∈ ((eventsOf [⟨some "u1", "weird_verb", 0, none⟩] "u1").map
        (fun r => dateOf r.time)).toFinset :=
  makePersonLevel_unknown_verb [⟨some "u1", "weird_verb", 0, none⟩] ["play_video"]
    "u1" ⟨some "u1", "weird_verb", 0, none⟩ (by decide) rfl (by decide)

theorem getStartAndEndWeeks_formula_witness :
    ∃ tf tl, firstTimeOf [⟨some "u1", "play_video", 300000, none⟩] "u1" = some tf ∧
      lastTimeOf [⟨some "u1", "play_video", 300000, none⟩] "u1" = some tl ∧
      (0 : Int) = (if tf - 0 < 0 then ⌊((tf - 0 : Int) : ℚ) / (secondsPerWeek : ℚ)⌋
            else ⌈((tf - 0 : Int) : ℚ) / (secondsPerWeek : ℚ)⌉ - 1) ∧
      (0 : Int) = (if tl - 0 < 0 then ⌊((tl - 0 : Int) : ℚ) / (secondsPerWeek : ℚ)⌋
            else ⌈((tl - 0 : Int) : ℚ) / (secondsPerWeek : ℚ)⌉ - 1) :=
  getStartAndEndWeeks_formula [⟨some "u1", "play_video", 300000, none⟩] 0 "u1" 0 0
    (by decide)

/-- C4: applying the discard-normalization transform twice to the
already-normalized string "problem_{HASH}_{NONHASH_ID}" yields the same
string as applying it once (no further substitution triggers). -/
theorem replaceHashes_idempotent_on_normalized :
    replaceHashes (replaceHashes "problem_{HASH}_{NONHASH_ID}".toList)
      = replaceHashes "problem_{HASH}_{NONHASH_ID}".toList := by decide

theorem subHashGo_of_short_runs :
    ∀ (fuel : Nat) (cs : List Char), cs.length ≤ fuel →
      (∀ i, i < cs.length → runLen isHexCh (List.drop i cs) ≤ 23) →
      subHashGo fuel cs = cs := by
  intro fuel
  induction fuel with
  | zero => intro cs _ _; rfl
  | succ f ih =>
    intro cs hlen hruns
    match cs with
    | [] => rfl
    | c :: cs' =>
      have h0 : runLen isHexCh (c :: cs') ≤ 23 := by
        have := hruns 0 (by simp)
        rwa [List.drop_zero] at this
      show (if 24 ≤ runLen isHexCh (c :: cs') then _ else c :: subHashGo f cs') = c :: cs'
      rw [if_neg (by omega)]
      have htail : subHashGo f cs' = cs' := by
        apply ih cs' (by simpa using Nat.lt_succ_iff.mp (Nat.lt_of_lt_of_le
          (Nat.lt_succ_of_le (Nat.le_refl _)) (by simpa using hlen)))
        intro i hi
        have := hruns (i + 1) (by simpa using Nat.succ_lt_succ hi)
        rwa [List.drop_succ_cons] at this
      rw [htail]

/-- C5: the hash pass turns the 24-hex-character suffix of
"play_video_a1b2c3d4e5f6a1b2c3d4e5f6" into the literal "\x7bHASH\x7d"
(as does the full normalization), while any string all of whose
hex runs are at most 23 characters long is left unchanged by that pass. -/
theorem subHash_length_gate :
    subHash "play_video_a1b2c3d4e5f6a1b2c3d4e5f6".toList
      = "play_video_{HASH}".toList ∧
    replaceHashes "play_video_a1b2c3d4e5f6a1b2c3d4e5f6".toList
      = "play_video_{HASH}".toList ∧
    ∀ cs : List Char, (∀ i, i < cs.length → runLen isHexCh (List.drop i cs) ≤ 23) →
      subHash cs = cs :=
  ⟨by decide, by decide,
   fun cs h => subHashGo_of_short_runs cs.length cs (Nat.le_refl _) h⟩

theorem subHash_length_gate_witness :
    subHash "abcdef0123456789abcdef0".toList = "abcdef0123456789abcdef0".toList :=
  subHash_length_gate.2.2 "abcdef0123456789abcdef0".toList (by decide)

/-- C6: on the empty record set, `countAnonymousUserEvents` with
`asPercent = true` fails with the empty-dataset (division-by-zero) error
instead of returning a numeric result. -/
theorem countAnonymousUserEvents_empty :
    countAnonymousUserEvents [] true = Except.error ErrorKind.emptyDataset := rfl

/-- C7: whenever the provider-reported timezone of a record's IP is not
resolvable (`tzdb` yields `none`, covering a missing/unrecognized name or
any conversion failure), the record's `local_time` is the explicit unknown
sentinel `none`, the record is still produced, and the batch output keeps
one output row per input row — no failure escapes `getIPInfo`. -/
theorem getIPInfo_tz_fallback (geo : String → GeoRecord)
    (tzdb : String → Option Int) (rows : List (Int × String)) (i : Nat)
    (t : Int) (ip : String) (hrow : rows[i]? = some (t, ip))
    (htz : tzdb ((geo ip).time_zone) = none) :
    (getIPInfo geo tzdb rows).length = rows.length ∧
    (getIPInfo geo tzdb rows)[i]? = some (getIPInfoRow geo tzdb t ip) ∧
    (getIPInfoRow geo tzdb t ip).local_time = none := by
  refine ⟨List.length_map _ _, ?_, ?_⟩
  · rw [getIPInfo, List.getElem?_map, hrow]
    rfl
  · simp [getIPInfoRow, htz]

theorem getIPInfo_tz_fallback_witness :
    (getIPInfo emptyGeo noTzdb [((0 : Int), "203.0.113.7")]).length
      = ([((0 : Int), "203.0.113.7")] : List (Int × String)).length ∧
    (getIPInfo emptyGeo noTzdb [((0 : Int), "203.0.113.7")])[0]?
      = some (getIPInfoRow emptyGeo noTzdb 0 "203.0.113.7") ∧
    (getIPInfoRow emptyGeo noTzdb 0 "203.0.113.7").local_time = none :=
  getIPInfo_tz_fallback emptyGeo noTzdb [((0 : Int), "203.0.113.7")] 0 0
    "203.0.113.7" rfl rfl

theorem isPrefixSub_iff (n h : List Char) :
    isPrefixSub n h = true ↔ ∃ rest, h = n ++ rest := by
  induction n generalizing h with
  | nil =>
    constructor
    · intro _
      exact ⟨h, rfl⟩
    · intro _
      rfl
  | cons c cs ih =>
    cases h with
    | nil =>
      constructor
      · intro hfalse
        exact absurd hfalse (by simp [isPrefixSub])
      · rintro ⟨rest, hrest⟩
        exact absurd hrest (by simp)
    | cons d ds =>
      show (decide (c = d) && isPrefixSub cs ds) = true ↔ _
      rw [Bool.and_eq_true, decide_eq_true_eq, ih]
      constructor
      · rintro ⟨rfl, rest, rfl⟩
        exact ⟨rest, rfl⟩
      · rintro ⟨rest, hrest⟩
        rw [List.cons_append] at hrest
        injection hrest with h1 h2
        exact ⟨h1.symm, rest, h2⟩

theorem hasSub_iff (hay needle : List Char) :
    hasSub hay needle = true ↔ ∃ pre post, hay = pre ++ needle ++ post := by
  induction hay with
  | nil =>
    show needle.isEmpty = true ↔ _
    rw [List.isEmpty_iff]
    constructor
    · rintro rfl
      exact ⟨[], [], rfl⟩
    · rintro ⟨pre, post, hsplit⟩
      exact (List.append_eq_nil.mp (List.append_eq_nil.mp hsplit.symm).1).2
  | cons c t ih =>
    show (isPrefixSub needle (c :: t) || hasSub t needle) = true ↔ _
    rw [Bool.or_eq_true, isPrefixSub_iff, ih]
    constructor
    · rintro (⟨rest, hr⟩ | ⟨pre, post, hp⟩)
      · exact ⟨[], rest, by simp [hr]⟩
      · exact ⟨c :: pre, post, by simp [hp]⟩
    · rintro ⟨pre, post, hp⟩
      cases pre with
      | nil =>
        exact Or.inl ⟨post, by simpa using hp⟩
      | cons x xs =>
        rw [List.cons_append, List.cons_append] at hp
        injection hp with _ h2
        exact Or.inr ⟨xs, post, by simpa using h2⟩

/-- C8: `getAxisLookupFails` keeps exactly the rows whose stringified
`object_name` contains the sentinel "Axis Lookup Failed" — a null
`object_name` (stringified "nan") is excluded — and the result is a
sublist of the input: original order, rows returned unchanged. -/
theorem getAxisLookupFails_spec (rs : List Event) :
    (getAxisLookupFails rs).Sublist rs ∧
    (∀ r, r ∈ getAxisLookupFails rs ↔ r ∈ rs ∧
      ∃ pre post, strOfObjName r.object_name = pre ++ axisFailSentinel ++ post) ∧
    (∀ r ∈ rs, r.object_name = none → r ∉ getAxisLookupFails rs) := by
  refine ⟨List.filter_sublist rs, ?_, ?_⟩
  · intro r
    rw [getAxisLookupFails, List.mem_filter, hasSub_iff]
  · intro r _ hnone hmem
    rw [getAxisLookupFails, List.mem_filter, hnone] at hmem
    exact absurd hmem.2 (by decide)

theorem getAxisLookupFails_spec_witness :
    (⟨none, "v", 0, some "Some text Axis Lookup Failed more text"⟩ : Event)
      ∈ getAxisLookupFails
        [⟨none, "v", 0, some "Some text Axis Lookup Failed more text"⟩,
         ⟨none, "v", 0, none⟩] ∧
    (⟨none, "v", 0, none⟩ : Event)
      ∉ getAxisLookupFails
        [⟨none, "v", 0, some "Some text Axis Lookup Failed more text"⟩,
         ⟨none, "v", 0, none⟩] :=
  ⟨((getAxisLookupFails_spec
      [⟨none, "v", 0, some "Some text Axis Lookup Failed more text"⟩,
       ⟨none, "v", 0, none⟩]).2.1 _).mpr
    ⟨by decide, "Some text ".toList, " more text".toList, by decide⟩,
   (getAxisLookupFails_spec
      [⟨none, "v", 0, some "Some text Axis Lookup Failed more text"⟩,
       ⟨none, "v", 0, none⟩]).2.2 _ (by decide) rfl⟩
